import Mathlib

/-!
Verification of the covid experiment-driver repository.

The development shallowly embeds the two source files:

* `src/FRED/main.py` — parameter-file manager (`read_param_file`,
  `get_default_params`, `dump_parameter_file`), configuration resolution
  (`init`), and the experiment driver (`run`).
* `src/SEIR_ODE/examples/plotting.py` — the simulation-index selection used
  by `make_trajectory_plot`.

Python strings are modelled as `List Char`; Python dicts (which preserve
insertion order, and on key update keep the key at its original position)
are modelled as association lists with an update-in-place-or-append
operation.  Fallible code returns `Except Unit`.  Importance weights are
modelled as rationals.
-/

set_option autoImplicit false

namespace Covid

/-- The whitespace characters removed by Python `str.strip()`. -/
def isPyWhitespace (c : Char) : Bool :=
  c = ' ' || c = '\t' || c = '\n' || c = '\x0b' || c = '\x0c' || c = '\r'

/-- Python `str.lstrip()`: drop leading whitespace. -/
def lstrip (s : List Char) : List Char := s.dropWhile isPyWhitespace

/-- Python `str.rstrip()`: drop trailing whitespace. -/
def rstrip (s : List Char) : List Char := (s.reverse.dropWhile isPyWhitespace).reverse

/-- Python `str.strip()`: drop whitespace at both ends. -/
def strip (s : List Char) : List Char := rstrip (lstrip s)

/-- Python `s.startswith(c)` for a one-character needle. -/
def startsWith (c : Char) : List Char → Bool
  | [] => false
  | a :: _ => a = c

/-- Python `s.split(sep)` for a one-character separator: splits at every
occurrence of `sep`; the empty string splits to one empty piece. -/
def splitOnChar (sep : Char) : List Char → List (List Char)
  | [] => [[]]
  | a :: rest =>
    match splitOnChar sep rest with
    | [] => [[a]]
    | p :: ps => if a = sep then [] :: p :: ps else (a :: p) :: ps

/-- A Python dict from parameter names to values, as an ordered association
list.  Keys are unique by construction of `aupdate`. -/
abbrev Params := List (List Char × List Char)

/-- Python `d[k] = v`: replace the value at `k` in place if present
(keeping its position, as Python dicts do), else append the new entry. -/
def aupdate : Params → List Char → List Char → Params
  | [], k, v => [(k, v)]
  | (k2, v2) :: rest, k, v =>
    if k2 = k then (k, v) :: rest else (k2, v2) :: aupdate rest k v

/-- Python `d.get(k)`: the value stored at `k`, if any. -/
def alookup (k : List Char) : Params → Option (List Char)
  | [] => none
  | (k2, v2) :: rest => if k2 = k then some v2 else alookup k rest

/-- Python `d.update(overlay)`: apply every entry of `overlay` in order. -/
def aupdateAll (m overlay : Params) : Params :=
  overlay.foldl (fun acc kv => aupdate acc kv.1 kv.2) m

/-- The filter in `read_param_file` (main.py line 51): keep a stripped line
unless it starts with a hash or is empty. -/
def keepLine (l : List Char) : Bool := !(startsWith '#' l || l.isEmpty)

/-- The loop body of `read_param_file` (main.py lines 53-57): split the line
on every equals sign, take `parts[0]` as the name and `parts[1]` as the
value, both stripped; a line with fewer than two parts raises (Python
IndexError on `parts[1]`). -/
def parseParamLine (acc : Params) (line : List Char) : Except Unit Params :=
  match splitOnChar '=' line with
  | p0 :: p1 :: _ => Except.ok (aupdate acc (strip p0) (strip p1))
  | _ => Except.error ()

/-- The strip / filter / assign pipeline of `read_param_file`
(main.py lines 50-58), processing the raw lines in order with the dict
accumulated so far. -/
def readParamLinesFrom (acc : Params) : List (List Char) → Except Unit Params
  | [] => Except.ok acc
  | l :: ls =>
    let s := strip l
    if keepLine s then
      match parseParamLine acc s with
      | Except.ok acc2 => readParamLinesFrom acc2 ls
      | Except.error e => Except.error e
    else readParamLinesFrom acc ls

/-- `read_param_file` (main.py lines 47-58) on a file content: split into
lines, then run the strip / filter / assign pipeline starting from the
empty dict. -/
def read_param_file (content : List Char) : Except Unit Params :=
  readParamLinesFrom [] (splitOnChar '\n' content)

/-- One formatted output line of `dump_parameter_file`
(main.py line 79), without the trailing newline. -/
def assignLine (k v : List Char) : List Char :=
  k ++ (' ' :: '=' :: ' ' :: v)

/-- The file content written by the loop of `dump_parameter_file`
(main.py lines 77-79): one `name = value` line per entry, each ending in a
newline. -/
def dumpContent (m : Params) : List Char :=
  (m.map (fun kv => assignLine kv.1 kv.2 ++ ['\n'])).flatten

/-- The merged mapping built by `dump_parameter_file` (main.py lines 73-76):
built-in defaults, updated by the base parameter file, updated by the
sampled overlay. -/
def dump_parameter_file_params (defaults basefile sampled : Params) : Params :=
  aupdateAll (aupdateAll defaults basefile) sampled

/-! ### The process-wide defaults cache (`get_default_params`, main.py lines 60-71)

The cache is the module-level `default_params` variable (`none` when unset).
File input is abstracted as the already-parsed outcome of locating and
reading the defaults file (`Except.error` when no file is found or it fails
to parse).  A call returns the mapping handed to the caller together with
the new cache state.  In this pure model the returned mapping and the cache
are separate values, mirroring the `copy()` calls in the source: mutating a
returned mapping cannot change the cache. -/

/-- One call to `get_default_params`: on a hit return the cached mapping
(a copy) and leave the cache unchanged; on a miss read the file, cache a
copy, and return the parsed mapping. -/
def get_default_params (cache : Option Params) (fileRead : Except Unit Params) :
    Except Unit (Params × Option Params) :=
  match cache with
  | some d => Except.ok (d, some d)
  | none =>
    match fileRead with
    | Except.ok p => Except.ok (p, some p)
    | Except.error e => Except.error e

/-- A sequence of `get_default_params` calls, one per file-read outcome,
threading the cache; yields every call result and the final cache.
A failed call leaves the cache unset. -/
def defaultParamsCalls (cache : Option Params) :
    List (Except Unit Params) → List (Except Unit Params) × Option Params
  | [] => ([], cache)
  | r :: rs =>
    match get_default_params cache r with
    | Except.ok (res, cache2) =>
      let rest := defaultParamsCalls cache2 rs
      (Except.ok res :: rest.1, rest.2)
    | Except.error e =>
      let rest := defaultParamsCalls cache rs
      (Except.error e :: rest.1, rest.2)

/-! ### Day-count resolution (`init`, main.py lines 106-112) -/

/-- Python `int(s)` on a string: optional surrounding whitespace, optional
sign, then decimal digits. -/
def digitsToNat (ds : List Char) : ℕ :=
  ds.foldl (fun a c => 10 * a + (c.toNat - 48)) 0

/-- Python `int(s)`; `Except.error` models the ValueError on a
non-numeric string. -/
def parsePyInt (s : List Char) : Except Unit Int :=
  match strip s with
  | '-' :: ds =>
    if !ds.isEmpty && ds.all Char.isDigit then Except.ok (-(digitsToNat ds : Int))
    else Except.error ()
  | '+' :: ds =>
    if !ds.isEmpty && ds.all Char.isDigit then Except.ok (digitsToNat ds : Int)
    else Except.error ()
  | ds =>
    if !ds.isEmpty && ds.all Char.isDigit then Except.ok (digitsToNat ds : Int)
    else Except.error ()

/-- The key string `days`. -/
def daysKey : List Char := "days".data

/-- The day-count resolution in `init` (main.py lines 106-112): an explicit
`days` setting is used verbatim; otherwise a `days` key of the base
parameter file is parsed as an integer; otherwise the built-in default
`days` value is parsed as an integer (a missing default key is the KeyError
raised by the subscript on line 112). -/
def resolveDays (daysSetting : Option Int) (baseParams defaults : Params) :
    Except Unit Int :=
  match daysSetting with
  | some d => Except.ok d
  | none =>
    match alookup daysKey baseParams with
    | some v => parsePyInt v
    | none =>
      match alookup daysKey defaults with
      | some v => parsePyInt v
      | none => Except.error ()

/-! ### The per-trace loop of `run` (main.py lines 150-162)

Each iteration writes the per-trace parameter file (line 155), computes
the importance weight as the exponential of the log-importance-weight
(line 157, modelled here by taking the weight itself, a rational, as
input), executes the band assertion (line 159), and on success stores the
binary classification (line 160).  The observable order of the side
effects is recorded as a list of events. -/

/-- The per-trace side effects of interest, in execution order. -/
inductive TraceEvent
  | paramWrite
  | weightAssert
  | classify
deriving DecidableEq

/-- The band assertion `weight < 0.2 or weight > 0.8` (main.py line 159). -/
def weightAssertOk (w : ℚ) : Bool :=
  decide (w < 1/5) || decide (4/5 < w)

/-- The classification `int(weight > 0.5)` (main.py line 160). -/
def classifyWeight (w : ℚ) : ℕ :=
  if 1/2 < w then 1 else 0

/-- One iteration of the per-trace loop on a trace with importance weight
`w`: the events executed, and the stored binary outcome (or the assertion
failure). -/
def processTrace (w : ℚ) : List TraceEvent × Except Unit ℕ :=
  if weightAssertOk w then
    ([TraceEvent.paramWrite, TraceEvent.weightAssert, TraceEvent.classify],
      Except.ok (classifyWeight w))
  else
    ([TraceEvent.paramWrite, TraceEvent.weightAssert], Except.error ())

/-- The whole loop `for idx, trace in enumerate(traces)` (main.py
lines 151-160), building the `trace_weights` dict keyed by the running
index; an assertion failure aborts the loop. -/
def runTraceLoopAux (idx : ℕ) (acc : List (ℕ × ℕ)) :
    List ℚ → Except Unit (List (ℕ × ℕ))
  | [] => Except.ok acc
  | w :: ws =>
    match (processTrace w).2 with
    | Except.ok b => runTraceLoopAux (idx + 1) (acc ++ [(idx, b)]) ws
    | Except.error e => Except.error e

/-- The per-trace loop started at index 0 with an empty dict, on the list
of the importance weights of the traces. -/
def runTraceLoop (weights : List ℚ) : Except Unit (List (ℕ × ℕ)) :=
  runTraceLoopAux 0 [] weights

/-- The diagnostic `np.mean(list(trace_weights.keys()))` printed on
main.py line 162: the mean of the keys of the dict. -/
def averageSuccessRate (tw : List (ℕ × ℕ)) : ℚ :=
  ((tw.map (fun kv => (kv.1 : ℚ))).sum) / (tw.length : ℚ)

/-! ### Simulation-index selection in `make_trajectory_plot`
(plotting.py lines 10-11 and 77-80) -/

/-- `n_sims_to_plot = 100` (plotting.py line 10). -/
def n_sims_to_plot : ℕ := 100

/-- The selection on plotting.py lines 77-80: when the pre-drawn index list
is longer than the ensemble, plot every ensemble index; otherwise use the
pre-drawn indices unchanged. -/
def simsSelect (simsToPlot : List ℕ) (n : ℕ) : List ℕ :=
  if simsToPlot.length > n then List.range n else simsToPlot

/-! ### Failure and cleanup control flow of `run` (main.py lines 143-179)

The try / except / finally structure is modelled on the path where the
`RemoteModel` constructor (line 144) itself raises, so the local name
`model` is never bound.  Events record the externally visible side
effects; the outcome is the exception `run` terminates with. -/

/-- Exceptions distinguished by the model. -/
inductive PyError
  | ctorFailure
  | unboundLocal
deriving DecidableEq

/-- Side effects of the failure path of `run`. -/
inductive RunEvent
  | archiveFailed
  | killProcess
deriving DecidableEq

/-- The except-clause of `run` (main.py lines 170-175): archive the partial
output when staging is configured, then re-raise the original exception. -/
def exceptHandler (staging : Bool) (e : PyError) :
    List RunEvent × Except PyError Unit :=
  ((if staging then [RunEvent.archiveFailed] else []), Except.error e)

/-- The finally-clause of `run` (main.py lines 176-179): reading the local
`model` raises UnboundLocalError when the name was never bound; otherwise
the tracked process group is killed. -/
def runFinally (modelBound : Bool) : List RunEvent × Except PyError Unit :=
  if modelBound then ([RunEvent.killProcess], Except.ok ())
  else ([], Except.error PyError.unboundLocal)

/-- Python try / except / finally: a raising body is passed to the handler
(which may add side effects before re-raising); the finally clause always
runs, and an exception raised inside it replaces the in-flight one. -/
def tryExceptFinally (body : List RunEvent × Except PyError Unit)
    (staging modelBound : Bool) : List RunEvent × Except PyError Unit :=
  let afterExcept :=
    match body.2 with
    | Except.ok a => (body.1, Except.ok a)
    | Except.error e =>
      let h := exceptHandler staging e
      (body.1 ++ h.1, h.2)
  let fin := runFinally modelBound
  (afterExcept.1 ++ fin.1,
    match fin.2 with
    | Except.error e2 => Except.error e2
    | Except.ok _ => afterExcept.2)

/-- `run` on the path where constructing the remote-model handle raises:
the body performs no events and fails before binding `model`. -/
def runWithCtorFailure (staging : Bool) : List RunEvent × Except PyError Unit :=
  tryExceptFinally ([], Except.error PyError.ctorFailure) staging false

end Covid

deriving instance DecidableEq for Except

namespace Covid

/-! ## Claim C1: weight classification at the band boundary -/

/-- Claim C1, counterexample: a trace with importance weight exactly 0.5 is
not classified as 0, and one with weight 0.51 is not classified as 1 —
both weights lie inside the closed band asserted against on main.py
line 159, so the loop aborts with the assertion failure before any entry
is stored. -/
theorem c1_counterexample :
    (processTrace (1/2)).2 = Except.error () ∧
    (processTrace (51/100)).2 = Except.error () ∧
    (processTrace (1/2)).2 ≠ Except.ok 0 ∧
    (processTrace (51/100)).2 ≠ Except.ok 1 := by
  have h1 : (processTrace (1/2)).2 = Except.error () := by
    norm_num [processTrace, weightAssertOk]
  have h2 : (processTrace (51/100)).2 = Except.error () := by
    norm_num [processTrace, weightAssertOk]
  exact ⟨h1, h2, by rw [h1]; decide, by rw [h2]; decide⟩

/-- Claim C1, amended: every importance weight inside the closed band from
0.2 to 0.8 — in particular 0.5, 0.51, 0.3 and 0.7 — triggers the fatal
assertion instead of being classified; a weight outside that band is
classified as 1 exactly when it exceeds 0.5 and as 0 exactly when it does
not. -/
theorem c1_amended_band_assert (w : ℚ) :
    (1/5 ≤ w ∧ w ≤ 4/5 → (processTrace w).2 = Except.error ()) ∧
    ((w < 1/5 ∨ 4/5 < w) →
      ((processTrace w).2 = Except.ok 1 ↔ 1/2 < w) ∧
      ((processTrace w).2 = Except.ok 0 ↔ w ≤ 1/2)) := by
  constructor
  · rintro ⟨h1, h2⟩
    have hfail : weightAssertOk w = false := by
      simp only [weightAssertOk, Bool.or_eq_false_iff, decide_eq_false_iff_not,
        not_lt]
      exact ⟨h1, h2⟩
    simp [processTrace, hfail]
  · intro h
    have hok : weightAssertOk w = true := by
      simp only [weightAssertOk, Bool.or_eq_true, decide_eq_true_eq]
      exact h
    by_cases hw : 1/2 < w
    · simp [processTrace, hok, classifyWeight, hw, not_le.mpr hw]
    · simp [processTrace, hok, classifyWeight, hw, not_lt.mp hw]

/-- Witness for C1: the weight 0.9 lies above the band and is classified
as 1. -/
theorem c1_witness : (processTrace (9/10)).2 = Except.ok 1 :=
  ((c1_amended_band_assert (9/10)).2 (Or.inr (by norm_num))).1.mpr (by norm_num)

/-! ## Claim C7: order of the per-trace steps -/

/-- Claim C7, counterexample: the per-trace steps are not executed in the
order asserted by the claim (weight assertion, then parameter-file write,
then classification); at the in-band-avoiding weight 0.9 the executed
order puts the parameter-file write first. -/
theorem c7_counterexample :
    (processTrace (9/10)).1 ≠
      [TraceEvent.weightAssert, TraceEvent.paramWrite, TraceEvent.classify] := by
  have h : (processTrace (9/10)).1 =
      [TraceEvent.paramWrite, TraceEvent.weightAssert, TraceEvent.classify] := by
    norm_num [processTrace, weightAssertOk]
  rw [h]; decide

/-- Claim C7, amended: within a single trace the parameter-file write comes
first, then the weight assertion, and — when the assertion passes — the
classification last, with no reordering. -/
theorem c7_amended_order (w : ℚ) :
    (processTrace w).1.take 2 = [TraceEvent.paramWrite, TraceEvent.weightAssert] ∧
    (weightAssertOk w = true →
      (processTrace w).1 =
        [TraceEvent.paramWrite, TraceEvent.weightAssert, TraceEvent.classify]) := by
  unfold processTrace
  by_cases h : weightAssertOk w <;> simp [h]

/-- Witness for C7: at weight 0.9 the executed order is write, assert,
classify. -/
theorem c7_witness :
    (processTrace (9/10)).1 =
      [TraceEvent.paramWrite, TraceEvent.weightAssert, TraceEvent.classify] :=
  (c7_amended_order (9/10)).2 (by norm_num [weightAssertOk])

/-! ## Claim C6: day-count resolution precedence -/

/-- Claim C6, confirmed: an explicit `days` setting is used verbatim;
otherwise a `days` key of the base parameter file is used, parsed as an
integer; otherwise the built-in default `days` value is used, parsed as an
integer. -/
theorem c6_days_resolution (daysSetting : Option Int) (base defaults : Params) :
    (∀ d, daysSetting = some d →
      resolveDays daysSetting base defaults = Except.ok d) ∧
    (∀ v, daysSetting = none → alookup daysKey base = some v →
      resolveDays daysSetting base defaults = parsePyInt v) ∧
    (∀ v, daysSetting = none → alookup daysKey base = none →
      alookup daysKey defaults = some v →
      resolveDays daysSetting base defaults = parsePyInt v) := by
  refine ⟨?_, ?_, ?_⟩
  · intro d hd; subst hd; simp [resolveDays]
  · intro v h1 h2; subst h1; simp [resolveDays, h2]
  · intro v h1 h2 h3; subst h1; simp [resolveDays, h2, h3]

/-- Witness for C6: with `days` configured as 5, resolution returns 5. -/
theorem c6_witness : resolveDays (some 5) [] [] = Except.ok 5 :=
  (c6_days_resolution (some 5) [] []).1 5 rfl

/-! ## Claim C8: the defaults cache is populated at most once -/

/-- Claim C8, confirmed: after the first successful `get_default_params`
call the cache is fixed; every later call succeeds and returns a mapping
equal to the first result, whatever the later file-read outcomes are, and
the cache never changes again.  In this pure model the returned mapping
and the cache are distinct values — the counterpart of the `copy()` calls
in the source — so mutation of a returned mapping cannot affect any
subsequent call. -/
theorem c8_defaults_cache (fileRead : Except Unit Params) (r : Params)
    (c : Option Params)
    (h : get_default_params none fileRead = Except.ok (r, c))
    (laterReads : List (Except Unit Params)) :
    (defaultParamsCalls c laterReads).1 =
      List.replicate laterReads.length (Except.ok r) ∧
    (defaultParamsCalls c laterReads).2 = c := by
  have hc : c = some r := by
    cases fileRead with
    | ok p =>
      simp only [get_default_params, Except.ok.injEq, Prod.mk.injEq] at h
      rw [← h.2, h.1]
    | error e => simp [get_default_params] at h
  subst hc
  induction laterReads with
  | nil => simp [defaultParamsCalls]
  | cons x xs ih =>
    simp only [defaultParamsCalls, get_default_params, List.length_cons,
      List.replicate_succ]
    exact ⟨by rw [ih.1], ih.2⟩

/-- Witness for C8: after a first call that parses the defaults file to a
one-entry mapping, a later call whose file read would fail still returns
the cached mapping. -/
theorem c8_witness :
    (defaultParamsCalls (some [("days".data, "5".data)]) [Except.error ()]).1 =
      List.replicate 1 (Except.ok [("days".data, "5".data)]) :=
  (c8_defaults_cache (Except.ok [("days".data, "5".data)])
    [("days".data, "5".data)] (some [("days".data, "5".data)]) rfl
    [Except.error ()]).1

/-! ## Claim C9: simulation-index selection bounds -/

/-- Claim C9, counterexample: when the ensemble has exactly 100 members the
pre-drawn random indices are used unchanged, and a pre-drawn index of 999
(legal, since indices are drawn from 0 to 999) is out of the
bounds of the ensemble. -/
theorem c9_counterexample :
    (List.replicate 100 999).length = n_sims_to_plot ∧
    (∀ i ∈ List.replicate 100 999, i < 1000) ∧
    999 ∈ simsSelect (List.replicate 100 999) 100 ∧
    ¬(999 < 100) := by
  refine ⟨by decide, ?_, ?_, by decide⟩
  · intro i hi
    have := List.eq_of_mem_replicate hi
    omega
  · simp [simsSelect, List.mem_replicate]

/-- Claim C9, amended: if the ensemble is smaller than 100 then every
plotted index lies inside the ensemble; when the pre-drawn indices are
used instead, every access stays in bounds provided the ensemble has at
least 1000 members (the bound the indices are drawn below) — for ensemble
sizes between 100 and 999 an out-of-bounds access is possible. -/
theorem c9_amended_bounds (simsToPlot : List ℕ) (n : ℕ)
    (hlen : simsToPlot.length = n_sims_to_plot)
    (hmax : ∀ i ∈ simsToPlot, i < 1000) :
    (n < n_sims_to_plot → ∀ i ∈ simsSelect simsToPlot n, i < n) ∧
    (1000 ≤ n → ∀ i ∈ simsSelect simsToPlot n, i < n) := by
  constructor
  · intro hn i hi
    have hgt : simsToPlot.length > n := by
      rw [hlen]; exact hn
    rw [simsSelect, if_pos hgt] at hi
    exact List.mem_range.mp hi
  · intro hn i hi
    have hle : ¬ simsToPlot.length > n := by
      rw [hlen]; simp only [n_sims_to_plot]; omega
    rw [simsSelect, if_neg hle] at hi
    exact lt_of_lt_of_le (hmax i hi) hn

/-- Witness for C9: with a 100-entry pre-drawn list and an ensemble of
5 members, the first selected index 0 is inside the ensemble. -/
theorem c9_witness : 0 < 5 :=
  (c9_amended_bounds (List.replicate 100 0) 5 (by decide) (by decide)).1
    (by decide) 0 (by decide)

/-! ## Claim C10: cleanup after a failed remote-model construction -/

/-- Claim C10, confirmed: when constructing the remote-model handle raises,
the reference of the finally-clause to the never-bound local `model` raises an
unbound-name error, which replaces the original exception as the outcome
of `run`; the failure-archive step still executes exactly when staging is
configured, and no process kill happens. -/
theorem c10_unbound_cleanup (staging : Bool) :
    (runWithCtorFailure staging).2 = Except.error PyError.unboundLocal ∧
    (runWithCtorFailure staging).2 ≠ Except.error PyError.ctorFailure ∧
    (staging = true → (runWithCtorFailure staging).1 = [RunEvent.archiveFailed]) ∧
    (staging = false → (runWithCtorFailure staging).1 = []) := by
  cases staging <;>
    simp [runWithCtorFailure, tryExceptFinally, exceptHandler, runFinally]

/-- Witness for C10: with staging configured, the failure archive is
written before the unbound-name error terminates the run. -/
theorem c10_witness : (runWithCtorFailure true).1 = [RunEvent.archiveFailed] :=
  (c10_unbound_cleanup true).2.2.1 rfl

/-! ## Claim C2: the average-success-rate diagnostic -/

/-- The keys of the dict built by a completed per-trace loop are the
consecutive indices starting at the initial index of the loop. -/
theorem runTraceLoopAux_keys :
    ∀ (ws : List ℚ) (idx : ℕ) (acc tw : List (ℕ × ℕ)),
      runTraceLoopAux idx acc ws = Except.ok tw →
      tw.map Prod.fst = acc.map Prod.fst ++ List.range' idx ws.length := by
  intro ws
  induction ws with
  | nil =>
    intro idx acc tw h
    simp only [runTraceLoopAux, Except.ok.injEq] at h
    subst h
    simp
  | cons w ws ih =>
    intro idx acc tw h
    unfold runTraceLoopAux at h
    cases hw : (processTrace w).2 with
    | error e => rw [hw] at h; simp at h
    | ok b =>
      rw [hw] at h
      have hkeys := ih (idx + 1) (acc ++ [(idx, b)]) tw h
      rw [List.length_cons, List.range'_succ, hkeys, List.map_append]
      simp

/-- Sum of the rationals 0 up to n-1. -/
theorem sum_range_cast (n : ℕ) :
    ((List.range n).map (Nat.cast : ℕ → ℚ)).sum = n * (n - 1) / 2 := by
  induction n with
  | zero => simp
  | succ m ih =>
    rw [List.range_succ, List.map_append, List.sum_append, ih]
    push_cast
    simp
    ring

/-- Claim C2, confirmed: when the per-trace loop completes, the printed
average-success-rate diagnostic equals the mean of the trace indices,
(num_traces - 1) / 2, independent of the binary outcomes stored in the
trace-weight table. -/
theorem c2_average_success_rate (weights : List ℚ) (tw : List (ℕ × ℕ))
    (h : runTraceLoop weights = Except.ok tw) (hn : weights ≠ []) :
    averageSuccessRate tw = ((weights.length : ℚ) - 1) / 2 := by
  have hkeys : tw.map Prod.fst = List.range' 0 weights.length := by
    simpa using runTraceLoopAux_keys weights 0 [] tw h
  have hlen : tw.length = weights.length := by
    have := congrArg List.length hkeys
    simpa using this
  have hsum : (tw.map (fun kv => (kv.1 : ℚ))).sum
      = ((List.range weights.length).map (Nat.cast : ℕ → ℚ)).sum := by
    have hmm : tw.map (fun kv => (kv.1 : ℚ))
        = (tw.map Prod.fst).map (Nat.cast : ℕ → ℚ) := by
      simp [List.map_map]
    rw [hmm, hkeys, ← List.range_eq_range']
  have hn0 : (weights.length : ℚ) ≠ 0 := by
    have hpos : weights.length ≠ 0 :=
      Nat.pos_iff_ne_zero.mp (List.length_pos.mpr hn)
    exact_mod_cast hpos
  unfold averageSuccessRate
  rw [hsum, sum_range_cast, hlen]
  field_simp
  ring

/-- Witness for C2: a one-trace run with weight 0.9 stores outcome 1, yet
the diagnostic is (1 - 1) / 2 = 0, the mean of the single index 0. -/
theorem c2_witness :
    averageSuccessRate [(0, 1)] = ((([(9 : ℚ)/10]).length : ℚ) - 1) / 2 :=
  c2_average_success_rate [(9 : ℚ)/10] [(0, 1)]
    (by norm_num [runTraceLoop, runTraceLoopAux, processTrace, weightAssertOk,
      classifyWeight])
    (by simp)

/-! ## Claim C5: layering precedence of the merged parameter mapping -/

/-- Lookup after one dict assignment: the assigned key now maps to the new
value; every other key is unchanged. -/
theorem alookup_aupdate (m : Params) (k v q : List Char) :
    alookup q (aupdate m k v) = if k = q then some v else alookup q m := by
  induction m with
  | nil => by_cases h : k = q <;> simp [aupdate, alookup, h]
  | cons kv rest ih =>
    obtain ⟨k2, v2⟩ := kv
    by_cases h1 : k2 = k
    · subst h1
      by_cases h2 : k2 = q <;> simp [aupdate, alookup, h2]
    · by_cases h2 : k2 = q
      · subst h2
        have : ¬ k = k2 := fun h => h1 h.symm
        simp [aupdate, alookup, h1, this]
      · simp [aupdate, alookup, h1, h2, ih]

/-- A key absent from a dict looks up to nothing. -/
theorem alookup_eq_none_of_not_mem (q : List Char) (m : Params)
    (h : q ∉ m.map Prod.fst) : alookup q m = none := by
  induction m with
  | nil => rfl
  | cons kv rest ih =>
    simp only [List.map_cons, List.mem_cons] at h
    push_neg at h
    have : ¬ kv.1 = q := fun he => h.1 he.symm
    obtain ⟨k2, v2⟩ := kv
    simp only [alookup, if_neg this]
    exact ih h.2

/-- Lookup after `d.update(overlay)` for an overlay with distinct keys:
the overlay wins where it has the key, the base dict answers otherwise. -/
theorem alookup_aupdateAll (m overlay : Params) (q : List Char)
    (hnd : (overlay.map Prod.fst).Nodup) :
    alookup q (aupdateAll m overlay) =
      (alookup q overlay).orElse (fun _ => alookup q m) := by
  induction overlay generalizing m with
  | nil => simp [aupdateAll, alookup, Option.none_orElse']
  | cons kv rest ih =>
    obtain ⟨k, v⟩ := kv
    simp only [List.map_cons, List.nodup_cons] at hnd
    have hstep : aupdateAll m ((k, v) :: rest) = aupdateAll (aupdate m k v) rest :=
      rfl
    rw [hstep, ih (aupdate m k v) hnd.2, alookup_aupdate]
    by_cases hq : k = q
    · subst hq
      have hnone : alookup k rest = none :=
        alookup_eq_none_of_not_mem k rest hnd.1
      simp [alookup, hnone, Option.some_orElse', Option.none_orElse']
    · have : ¬ q = k := fun h => hq h.symm
      simp [alookup, hq, this]

/-- Claim C5, confirmed: in the merged mapping written by
`dump_parameter_file`, each key takes its value from the
highest-precedence layer containing it (defaults, then base file, then
sampled overlay), and keys absent from later layers keep their
earlier-layer values. -/
theorem c5_layering (defaults basefile sampled : Params) (q : List Char)
    (hb : (basefile.map Prod.fst).Nodup) (hs : (sampled.map Prod.fst).Nodup) :
    alookup q (dump_parameter_file_params defaults basefile sampled) =
      (alookup q sampled).orElse
        (fun _ => (alookup q basefile).orElse (fun _ => alookup q defaults)) := by
  unfold dump_parameter_file_params
  rw [alookup_aupdateAll _ _ _ hs]
  by_cases h : alookup q sampled = none
  · rw [h, Option.none_orElse', Option.none_orElse',
      alookup_aupdateAll _ _ _ hb]
  · obtain ⟨v, hv⟩ := Option.ne_none_iff_exists'.mp h
    rw [hv, Option.some_orElse', Option.some_orElse']

/-- Witness for C5: on the example layers of the claim, the merged mapping
sends `b` to the base-file value 3. -/
theorem c5_witness :
    alookup "b".data (dump_parameter_file_params
        [("a".data, "1".data), ("b".data, "2".data)]
        [("b".data, "3".data), ("c".data, "4".data)]
        [("c".data, "5".data)]) = some "3".data := by
  have h := c5_layering [("a".data, "1".data), ("b".data, "2".data)]
      [("b".data, "3".data), ("c".data, "4".data)] [("c".data, "5".data)]
      "b".data (by decide) (by decide)
  rw [h]
  decide

/-! ## Split and strip helper lemmas (for claims C3 and C4) -/

/-- The defining equation of `splitOnChar` on a non-empty list. -/
theorem splitOnChar_cons (sep a : Char) (rest : List Char) :
    splitOnChar sep (a :: rest) =
      match splitOnChar sep rest with
      | [] => [[a]]
      | p :: ps => if a = sep then [] :: p :: ps else (a :: p) :: ps := rfl

/-- Splitting always yields at least one piece. -/
theorem splitOnChar_ne_nil (sep : Char) (l : List Char) :
    splitOnChar sep l ≠ [] := by
  cases l with
  | nil => simp [splitOnChar]
  | cons a rest =>
    rw [splitOnChar_cons]
    cases splitOnChar sep rest with
    | nil => simp
    | cons p ps => by_cases h : a = sep <;> simp [h]

/-- A list free of the separator splits to the single piece itself. -/
theorem splitOnChar_of_not_mem (sep : Char) (l : List Char) (h : sep ∉ l) :
    splitOnChar sep l = [l] := by
  induction l with
  | nil => rfl
  | cons a rest ih =>
    simp only [List.mem_cons] at h
    push_neg at h
    have ha : ¬ a = sep := fun he => h.1 he.symm
    rw [splitOnChar_cons, ih h.2]
    simp [ha]

/-- Splitting at the first separator occurrence: the piece before it comes
off whole. -/
theorem splitOnChar_append_sep (sep : Char) (a b : List Char) (h : sep ∉ a) :
    splitOnChar sep (a ++ sep :: b) = a :: splitOnChar sep b := by
  induction a with
  | nil =>
    simp only [List.nil_append]
    rw [splitOnChar_cons]
    cases hs : splitOnChar sep b with
    | nil => exact absurd hs (splitOnChar_ne_nil sep b)
    | cons p ps => simp [← hs]
  | cons c a2 ih =>
    simp only [List.mem_cons] at h
    push_neg at h
    have hc : ¬ c = sep := fun he => h.1 he.symm
    simp only [List.cons_append]
    rw [splitOnChar_cons, ih h.2]
    simp [hc]

/-- The first piece of a split is the longest separator-free front. -/
theorem splitOnChar_head_takeWhile (sep : Char) (l : List Char) :
    ∃ ps, splitOnChar sep l = (l.takeWhile (fun c => c != sep)) :: ps := by
  induction l with
  | nil => exact ⟨[], rfl⟩
  | cons a rest ih =>
    obtain ⟨ps, hps⟩ := ih
    by_cases ha : a = sep
    · refine ⟨rest.takeWhile (fun c => c != sep) :: ps, ?_⟩
      rw [splitOnChar_cons, hps]
      simp [ha, ← hps]
    · refine ⟨ps, ?_⟩
      rw [splitOnChar_cons, hps]
      simp [ha]



/-- Dropping a front never lengthens a list. -/
theorem dropWhile_length_le (p : Char → Bool) (l : List Char) :
    (l.dropWhile p).length ≤ l.length := by
  induction l with
  | nil => simp
  | cons a rest ih =>
    rw [List.dropWhile_cons]
    by_cases h : p a <;> simp [h]
    omega

/-- A list unchanged by `dropWhile` has a head the predicate rejects. -/
theorem head_false_of_dropWhile_eq_self (p : Char → Bool) (c : Char)
    (t : List Char) (h : List.dropWhile p (c :: t) = c :: t) : p c = false := by
  by_cases hp : p c
  · rw [List.dropWhile_cons, if_pos hp] at h
    have hlen := congrArg List.length h
    have hle := dropWhile_length_le p t
    simp at hlen
    omega
  · exact Bool.of_not_eq_true hp

/-- A left-stripped non-empty list starts with a non-whitespace character:
prepending it to anything left-strips to itself. -/
theorem lstrip_append_eq_self (k rest : List Char) (hk : k ≠ [])
    (hl : lstrip k = k) : lstrip (k ++ rest) = k ++ rest := by
  obtain ⟨c, k2, rfl⟩ := List.exists_cons_of_ne_nil hk
  have hc : isPyWhitespace c = false :=
    head_false_of_dropWhile_eq_self isPyWhitespace c k2 hl
  simp only [List.cons_append, lstrip, List.dropWhile_cons, hc]
  simp

/-- A right-stripped non-empty list ends with a non-whitespace character:
appending it to anything right-strips to itself. -/
theorem rstrip_append_eq_self (pre v : List Char) (hv : v ≠ [])
    (hr : rstrip v = v) : rstrip (pre ++ v) = pre ++ v := by
  have hdw : v.reverse.dropWhile isPyWhitespace = v.reverse := by
    have h2 := congrArg List.reverse hr
    simpa [rstrip] using h2
  have hrev : v.reverse ≠ [] := by
    simpa using hv
  obtain ⟨d, t, hdt⟩ := List.exists_cons_of_ne_nil hrev
  have hd : isPyWhitespace d = false := by
    rw [hdt] at hdw
    exact head_false_of_dropWhile_eq_self isPyWhitespace d t hdw
  unfold rstrip
  rw [List.reverse_append, hdt, List.cons_append, List.dropWhile_cons, hd]
  simp only [Bool.false_eq_true, if_false]
  rw [← List.cons_append, ← hdt, ← List.reverse_append]
  simp

/-- The stripped form of a written assignment line whose key is left- and
whose value is right-stripped: the line is already stripped. -/
theorem strip_assignLine (k v : List Char) (hk0 : k ≠ [])
    (hkl : lstrip k = k) (hv0 : v ≠ []) (hvr : rstrip v = v) :
    strip (assignLine k v) = assignLine k v := by
  unfold strip assignLine
  rw [lstrip_append_eq_self k (' ' :: '=' :: ' ' :: v) hk0 hkl]
  have hsplit : k ++ (' ' :: '=' :: ' ' :: v) = (k ++ [' ', '=', ' ']) ++ v := by
    simp
  rw [hsplit, rstrip_append_eq_self (k ++ [' ', '=', ' ']) v hv0 hvr, ← hsplit]

/-- Stripping the key part produced by splitting a written line: the key
followed by the single space before the equals sign strips back to the
key. -/
theorem strip_key_part (k : List Char) (hk0 : k ≠ []) (hkl : lstrip k = k)
    (hkr : rstrip k = k) : strip (k ++ [' ']) = k := by
  unfold strip
  rw [lstrip_append_eq_self k [' '] hk0 hkl]
  have hdw : k.reverse.dropWhile isPyWhitespace = k.reverse := by
    have h2 := congrArg List.reverse hkr
    simpa [rstrip] using h2
  unfold rstrip
  rw [List.reverse_append]
  simp only [List.reverse_cons, List.reverse_nil, List.nil_append,
    List.singleton_append, List.dropWhile_cons]
  norm_num [isPyWhitespace, hdw]

/-- Stripping the value part produced by splitting a written line: the
single space after the equals sign followed by the value strips back to
the value. -/
theorem strip_value_part (v : List Char) (hvl : lstrip v = v)
    (hvr : rstrip v = v) : strip (' ' :: v) = v := by
  unfold strip
  have h1 : lstrip (' ' :: v) = lstrip v := by
    simp [lstrip, List.dropWhile_cons, isPyWhitespace]
  rw [h1, hvl, hvr]

/-! ## Per-line behaviour of the reader (claims C3 and C4) -/

/-- A line that strips to empty or to a hash-comment is discarded: the
reader state passes through unchanged. -/
theorem readParamLinesFrom_skip (acc : Params) (l : List Char)
    (ls : List (List Char)) (h : keepLine (strip l) = false) :
    readParamLinesFrom acc (l :: ls) = readParamLinesFrom acc ls := by
  simp [readParamLinesFrom, h]

/-- A kept line with no equals sign aborts the reader with the error from
the out-of-range part access. -/
theorem readParamLinesFrom_noeq (acc : Params) (l : List Char)
    (ls : List (List Char)) (h1 : strip l ≠ [])
    (h2 : startsWith '#' (strip l) = false) (h3 : '=' ∉ strip l) :
    readParamLinesFrom acc (l :: ls) = Except.error () := by
  have hkeep : keepLine (strip l) = true := by
    simp [keepLine, h2, List.isEmpty_iff, h1]
  have hparse : parseParamLine acc (strip l) = Except.error () := by
    unfold parseParamLine
    rw [splitOnChar_of_not_mem '=' (strip l) h3]
  simp [readParamLinesFrom, hkeep, hparse]

/-- A kept line whose stripped form is a name, an equals sign, and a rest:
the reader assigns the stripped name to the stripped segment of the rest
before its next equals sign, and goes on. -/
theorem readParamLinesFrom_assign_general (acc : Params) (l name val : List Char)
    (ls : List (List Char)) (hshape : strip l = name ++ '=' :: val)
    (hname : '=' ∉ name)
    (hhash : startsWith '#' (name ++ '=' :: val) = false) :
    readParamLinesFrom acc (l :: ls) =
      readParamLinesFrom
        (aupdate acc (strip name)
          (strip (val.takeWhile (fun c => c != '=')))) ls := by
  have hne : name ++ '=' :: val ≠ [] := by
    cases name <;> simp
  have hkeep : keepLine (strip l) = true := by
    rw [hshape]
    simp [keepLine, hhash, List.isEmpty_iff, hne]
  obtain ⟨ps, hps⟩ := splitOnChar_head_takeWhile '=' val
  have hparse : parseParamLine acc (strip l) =
      Except.ok (aupdate acc (strip name)
        (strip (val.takeWhile (fun c => c != '=')))) := by
    unfold parseParamLine
    rw [hshape, splitOnChar_append_sep '=' name val hname, hps]
  simp [readParamLinesFrom, hkeep, hparse]

/-- The reader consumes a written assignment line whose key and value are
already stripped, free of equals signs, and non-empty (key additionally
not starting a comment) by storing exactly that key-value pair. -/
theorem readParamLinesFrom_assign (acc : Params) (k v : List Char)
    (ls : List (List Char)) (hk0 : k ≠ []) (hkl : lstrip k = k)
    (hkr : rstrip k = k) (hke : '=' ∉ k) (hkh : startsWith '#' k = false)
    (hv0 : v ≠ []) (hvl : lstrip v = v) (hvr : rstrip v = v)
    (hve : '=' ∉ v) :
    readParamLinesFrom acc (assignLine k v :: ls) =
      readParamLinesFrom (aupdate acc k v) ls := by
  have hshape : strip (assignLine k v) = (k ++ [' ']) ++ '=' :: (' ' :: v) := by
    rw [strip_assignLine k v hk0 hkl hv0 hvr]
    simp [assignLine]
  have hname : '=' ∉ k ++ [' '] := by
    intro hmem
    rcases List.mem_append.mp hmem with hmem2 | hmem2
    · exact hke hmem2
    · simp at hmem2
  have hhash : startsWith '#' ((k ++ [' ']) ++ '=' :: (' ' :: v)) = false := by
    obtain ⟨c, k2, rfl⟩ := List.exists_cons_of_ne_nil hk0
    simpa [startsWith] using hkh
  have h1 := readParamLinesFrom_assign_general acc (assignLine k v)
    (k ++ [' ']) (' ' :: v) ls hshape hname hhash
  rw [h1]
  have htake : (' ' :: v).takeWhile (fun c => c != '=') = ' ' :: v := by
    rw [List.takeWhile_eq_self_iff.mpr]
    intro a ha
    rcases List.mem_cons.mp ha with rfl | ha2
    · decide
    · simp only [bne_iff_ne, ne_eq]
      exact fun he => hve (he ▸ ha2)
  rw [htake, strip_key_part k hk0 hkl hkr, strip_value_part v hvl hvr]


/-! ## Claim C3: behaviour of the parameter-file reader -/

/-- Claim C3, counterexample: on the example line of the claim the reader maps
the name to the segment between the first and second equals signs, not to
the full remainder — `a = b=c` parses to the value `b`, not `b=c`. -/
theorem c3_counterexample :
    read_param_file ("a = b=c").data = Except.ok [("a".data, "b".data)] ∧
    read_param_file ("a = b=c").data ≠
      Except.ok [("a".data, ("b=c").data)] := by
  constructor <;> decide

/-- Claim C3, amended: `read_param_file` strips whitespace from each line,
discards empty lines and lines beginning with a hash, splits each
remaining line at its equals signs taking the part before the first as the
name and the part between the first and the second (or the end) as the
value, both trimmed — so `a = b=c` maps `a` to `b` — and fails on any
kept line containing no equals sign. -/
theorem c3_amended_read_param :
    (∀ acc l ls, strip l = [] ∨ startsWith '#' (strip l) = true →
      readParamLinesFrom acc (l :: ls) = readParamLinesFrom acc ls) ∧
    (∀ acc l ls, strip l ≠ [] → startsWith '#' (strip l) = false →
      '=' ∉ strip l → readParamLinesFrom acc (l :: ls) = Except.error ()) ∧
    (∀ acc l name val ls, strip l = name ++ '=' :: val → '=' ∉ name →
      startsWith '#' (name ++ '=' :: val) = false →
      readParamLinesFrom acc (l :: ls) =
        readParamLinesFrom
          (aupdate acc (strip name)
            (strip (val.takeWhile (fun c => c != '=')))) ls) ∧
    read_param_file ("a = b=c").data = Except.ok [("a".data, "b".data)] := by
  refine ⟨?_, readParamLinesFrom_noeq, readParamLinesFrom_assign_general,
    by decide⟩
  intro acc l ls h
  apply readParamLinesFrom_skip
  rcases h with h | h
  · rw [h]; decide
  · simp [keepLine, h]

/-- Witness for C3: the assignment conjunct applied to the example line
`a = b=c`. -/
theorem c3_witness :
    readParamLinesFrom [] ["a = b=c".data] =
      readParamLinesFrom
        (aupdate [] (strip ("a ").data)
          (strip ((" b=c").data.takeWhile (fun c => c != '=')))) [] :=
  c3_amended_read_param.2.2.1 [] "a = b=c".data ("a ").data (" b=c").data []
    (by decide) (by decide) (by decide)

/-! ## Claim C4: write / read round trip -/

/-- Assigning a fresh key appends the entry. -/
theorem aupdate_eq_append (m : Params) (k v : List Char)
    (h : k ∉ m.map Prod.fst) : aupdate m k v = m ++ [(k, v)] := by
  induction m with
  | nil => rfl
  | cons kv rest ih =>
    simp only [List.map_cons, List.mem_cons] at h
    push_neg at h
    have hne : ¬ kv.1 = k := fun he => h.1 he.symm
    obtain ⟨k2, v2⟩ := kv
    simp only [aupdate, if_neg hne, List.cons_append]
    rw [ih h.2]

/-- Replaying a dict with pairwise-distinct keys onto an accumulator with
disjoint keys appends it unchanged. -/
theorem foldl_aupdate_nodup :
    ∀ (m acc : Params), (acc.map Prod.fst ++ m.map Prod.fst).Nodup →
      m.foldl (fun a kv => aupdate a kv.1 kv.2) acc = acc ++ m := by
  intro m
  induction m with
  | nil => intro acc h; simp
  | cons kv m2 ih =>
    intro acc h
    have hk : kv.1 ∉ acc.map Prod.fst := by
      have hdisj := (List.nodup_append.mp h).2.2
      intro hmem
      exact hdisj hmem (by simp)
    have hstep : aupdate acc kv.1 kv.2 = acc ++ [(kv.1, kv.2)] :=
      aupdate_eq_append acc kv.1 kv.2 hk
    have hre : (acc ++ [(kv.1, kv.2)]).map Prod.fst ++ m2.map Prod.fst
        = acc.map Prod.fst ++ (kv :: m2).map Prod.fst := by
      simp
    rw [List.foldl_cons, hstep, ih (acc ++ [(kv.1, kv.2)]) (hre ▸ h)]
    simp

/-- Splitting the written file content on newlines recovers the assignment
lines, plus one final empty piece from the trailing newline. -/
theorem splitOnChar_dumpContent :
    ∀ (m : Params), (∀ kv ∈ m, '\n' ∉ kv.1 ∧ '\n' ∉ kv.2) →
      splitOnChar '\n' (dumpContent m) =
        (m.map (fun kv => assignLine kv.1 kv.2)) ++ [[]] := by
  intro m
  induction m with
  | nil => intro h; rfl
  | cons kv m2 ih =>
    intro h
    have hline : '\n' ∉ assignLine kv.1 kv.2 := by
      intro hmem
      unfold assignLine at hmem
      rcases List.mem_append.mp hmem with h1 | h1
      · exact (h kv (by simp)).1 h1
      · rcases List.mem_cons.mp h1 with h2 | h1
        · exact absurd h2 (by decide)
        · rcases List.mem_cons.mp h1 with h2 | h1
          · exact absurd h2 (by decide)
          · rcases List.mem_cons.mp h1 with h2 | h1
            · exact absurd h2 (by decide)
            · exact (h kv (by simp)).2 h1
    have hcontent : dumpContent (kv :: m2)
        = assignLine kv.1 kv.2 ++ '\n' :: dumpContent m2 := by
      simp [dumpContent]
    rw [hcontent, splitOnChar_append_sep '\n' _ _ hline,
      ih (fun kv2 hkv2 => h kv2 (List.mem_cons_of_mem kv hkv2))]
    simp

/-- The reader replays a dump of well-formed entries as assignments onto
its accumulator. -/
theorem readParamLinesFrom_dump_aux :
    ∀ (m acc : Params),
      (∀ kv ∈ m,
        (kv.1 ≠ [] ∧ lstrip kv.1 = kv.1 ∧ rstrip kv.1 = kv.1 ∧
          '=' ∉ kv.1 ∧ startsWith '#' kv.1 = false) ∧
        (kv.2 ≠ [] ∧ lstrip kv.2 = kv.2 ∧ rstrip kv.2 = kv.2 ∧
          '=' ∉ kv.2)) →
      readParamLinesFrom acc
          ((m.map (fun kv => assignLine kv.1 kv.2)) ++ [[]]) =
        Except.ok (m.foldl (fun a kv => aupdate a kv.1 kv.2) acc) := by
  intro m
  induction m with
  | nil =>
    intro acc h
    have hskip : keepLine (strip ([] : List Char)) = false := by decide
    simp only [List.map_nil, List.nil_append, List.foldl_nil]
    rw [readParamLinesFrom_skip acc [] [] hskip]
    rfl
  | cons kv m2 ih =>
    intro acc h
    obtain ⟨⟨hk0, hkl, hkr, hke, hkh⟩, ⟨hv0, hvl, hvr, hve⟩⟩ :=
      h kv (by simp)
    simp only [List.map_cons, List.cons_append, List.foldl_cons]
    rw [readParamLinesFrom_assign acc kv.1 kv.2 _ hk0 hkl hkr hke hkh
      hv0 hvl hvr hve]
    exact ih (aupdate acc kv.1 kv.2)
      (fun kv2 hkv2 => h kv2 (List.mem_cons_of_mem kv hkv2))

/-- Claim C4, counterexample: the round trip fails for a mapping whose
value contains an equals sign, even though its key is unambiguous —
writing `a = b=c` and re-reading yields the value `b`. -/
theorem c4_counterexample :
    read_param_file (dumpContent [("a".data, ("b=c").data)]) ≠
      Except.ok [("a".data, ("b=c").data)] := by
  decide

/-- Claim C4, amended: writing a parameter mapping in the
`dump_parameter_file` output format and re-reading it reproduces the
mapping, provided the keys are distinct and every key and every value is
non-empty, already whitespace-trimmed, and free of embedded equals signs
and newlines, with no key starting a comment. -/
theorem c4_amended_roundtrip (m : Params)
    (hnd : (m.map Prod.fst).Nodup)
    (hcond : ∀ kv ∈ m,
      (kv.1 ≠ [] ∧ lstrip kv.1 = kv.1 ∧ rstrip kv.1 = kv.1 ∧
        '=' ∉ kv.1 ∧ '\n' ∉ kv.1 ∧ startsWith '#' kv.1 = false) ∧
      (kv.2 ≠ [] ∧ lstrip kv.2 = kv.2 ∧ rstrip kv.2 = kv.2 ∧
        '=' ∉ kv.2 ∧ '\n' ∉ kv.2)) :
    read_param_file (dumpContent m) = Except.ok m := by
  unfold read_param_file
  rw [splitOnChar_dumpContent m
    (fun kv hkv => ⟨(hcond kv hkv).1.2.2.2.2.1, (hcond kv hkv).2.2.2.2.2⟩)]
  rw [readParamLinesFrom_dump_aux m []
    (fun kv hkv =>
      ⟨⟨(hcond kv hkv).1.1, (hcond kv hkv).1.2.1, (hcond kv hkv).1.2.2.1,
        (hcond kv hkv).1.2.2.2.1, (hcond kv hkv).1.2.2.2.2.2⟩,
       ⟨(hcond kv hkv).2.1, (hcond kv hkv).2.2.1, (hcond kv hkv).2.2.2.1,
        (hcond kv hkv).2.2.2.2.1⟩⟩)]
  rw [foldl_aupdate_nodup m [] (by simpa using hnd)]
  simp

/-- Witness for C4: a two-entry mapping of clean keys and values survives
the write / read round trip. -/
theorem c4_witness :
    read_param_file (dumpContent [("a".data, "1".data), ("b".data, "2".data)]) =
      Except.ok [("a".data, "1".data), ("b".data, "2".data)] :=
  c4_amended_roundtrip [("a".data, "1".data), ("b".data, "2".data)]
    (by decide) (by decide)

end Covid
